import Mathlib

/-!
Shallow embedding of the traced Move-VM interpreter driver
(`src/move/movevm.rs`): the tracer `on_step` that populates the four
process-global feedback maps, the driver loop of `execute` with its
explicit call stack, and the result extraction that zips the residual
operand stack against the declared return types.

Conventions of the embedding:
* machine integers are `Nat` with explicit `% 2 ^ w` at the points where
  the Rust code can wrap (u8 counter bump, u16 pc bump, u128
  `unchecked_add`);
* the operand stack is a `List` whose HEAD is the TOP of the stack
  (`fast_peek_back!(i)` = `stack.get? 0`, `fast_peek_back!(i, 2)` =
  `stack.get? 1`, `pop` = taking the head);
* a Rust panic (`unreachable!`, `unwrap`, slice-index failure, `todo!`)
  is `Option.none`;
* the per-frame step function `execute_code` belongs to the external
  `move_vm_runtime` crate, so the driver loop is modelled against an
  oracle script listing what each invocation of it returns.
-/

namespace MoveVMModel

/-- Modelled from the spec: `MAP_SIZE` is a compile-time power-of-two
constant imported from `crate::generic_vm::vm_executor`, whose source is
not part of this snapshot.  The spec only requires a power of two; we fix
`2 ^ 12`.  Every theorem below uses it only through `% MAP_SIZE` and the
divisibilities `MAP_SIZE ∣ 2 ^ 16` and `MAP_SIZE ∣ 2 ^ 128`. -/
def MAP_SIZE : Nat := 4096

/-- `u128::MAX`. -/
def u128Max : Nat := 2 ^ 128 - 1

/-- The runtime values the tracer peeks at (`move_vm_types::values::ValueImpl`).
`structRef fields` stands for a struct reference whose `borrow_field 0`
followed by `read_ref` yields `fields.head`; `otherValue` covers every
variant the tracer does not inspect. -/
inductive ValueImpl where
  | u8v (v : Nat)
  | u16v (v : Nat)
  | u32v (v : Nat)
  | u64v (v : Nat)
  | u128v (v : Nat)
  | u256v (v : Nat)
  | boolv (b : Bool)
  | address (bytes : List Nat)
  | structRef (fields : List ValueImpl)
  | otherValue

/-- The bytecode constructors the tracer distinguishes
(`move_binary_format::file_format::Bytecode`); `otherInstr` is every
instruction of the catch-all arm. -/
inductive Bytecode where
  | BrTrue (offset : Nat)
  | BrFalse (offset : Nat)
  | Eq
  | Neq
  | Lt
  | Le
  | Gt
  | Ge
  | MutBorrowGlobal (sd : Nat)
  | ImmBorrowGlobal (sd : Nat)
  | Exists (sd : Nat)
  | MoveFrom (sd : Nat)
  | MutBorrowGlobalGeneric (sd : Nat)
  | ImmBorrowGlobalGeneric (sd : Nat)
  | ExistsGeneric (sd : Nat)
  | MoveFromGeneric (sd : Nat)
  | MoveTo (sd : Nat)
  | MoveToGeneric (sd : Nat)
  | Call
  | CallGeneric
  | otherInstr

/-- The four process-global feedback maps (lines 34-37 of the source),
as total functions on bucket indices. -/
structure TracerMaps where
  cov : Nat → Nat
  cmp : Nat → Nat
  read : Nat → Bool
  write : Nat → Nat

/-- Pointwise array update. -/
def updf {α : Type} (f : Nat → α) (i : Nat) (a : α) : Nat → α :=
  fun j => if j = i then a else f j

/-- The static initializers:
`MOVE_COV_MAP = [0u8; MAP_SIZE]`, `MOVE_CMP_MAP = [0; MAP_SIZE]`,
`MOVE_READ_MAP = [false; MAP_SIZE]`, `MOVE_WRITE_MAP = [0u8; MAP_SIZE]`. -/
def initMaps : TracerMaps :=
  { cov := fun _ => 0, cmp := fun _ => 0, read := fun _ => false, write := fun _ => 0 }

/-- The `distance!` macro: `0` when `cond` holds, else `|l - v|`
(the guarded pair of u128 subtractions). -/
def distance (cond : Bool) (l v : Nat) : Nat :=
  if !cond then (if l > v then l - v else v - l) else 0

/-- The match of the `Bytecode::Eq` arm (lines 111-120). -/
def distanceEq : ValueImpl → ValueImpl → Nat
  | .u8v l, .u8v r => distance (decide (l = r)) l r
  | .u16v l, .u16v r => distance (decide (l = r)) l r
  | .u32v l, .u32v r => distance (decide (l = r)) l r
  | .u64v l, .u64v r => distance (decide (l = r)) l r
  | .u128v l, .u128v r => distance (decide (l = r)) l r
  | .u256v l, .u256v r => distance (decide (l = r)) (l % 2 ^ 128) (r % 2 ^ 128)
  | .boolv l, .boolv r => if l = r then 0 else 1
  | _, _ => u128Max

/-- The match of the `Bytecode::Lt | Bytecode::Le` arm (lines 129-137):
the predicate is `*l <= *r`; for u256 the comparison is on the full
values while the subtraction is on `unchecked_as_u128` halves. -/
def distanceLe : ValueImpl → ValueImpl → Nat
  | .u8v l, .u8v r => distance (decide (l ≤ r)) l r
  | .u16v l, .u16v r => distance (decide (l ≤ r)) l r
  | .u32v l, .u32v r => distance (decide (l ≤ r)) l r
  | .u64v l, .u64v r => distance (decide (l ≤ r)) l r
  | .u128v l, .u128v r => distance (decide (l ≤ r)) l r
  | .u256v l, .u256v r => distance (decide (l ≤ r)) (l % 2 ^ 128) (r % 2 ^ 128)
  | _, _ => u128Max

/-- The match of the `Bytecode::Gt | Bytecode::Ge` arm (lines 145-153):
the predicate is `*l >= *r`. -/
def distanceGe : ValueImpl → ValueImpl → Nat
  | .u8v l, .u8v r => distance (decide (r ≤ l)) l r
  | .u16v l, .u16v r => distance (decide (r ≤ l)) l r
  | .u32v l, .u32v r => distance (decide (r ≤ l)) l r
  | .u64v l, .u64v r => distance (decide (r ≤ l)) l r
  | .u128v l, .u128v r => distance (decide (r ≤ l)) l r
  | .u256v l, .u256v r => distance (decide (r ≤ l)) (l % 2 ^ 128) (r % 2 ^ 128)
  | _, _ => u128Max

/-- `u128::from_le_bytes`. -/
def u128FromLeBytes (bs : List Nat) : Nat :=
  bs.foldr (fun b acc => b + 256 * acc) 0

/-- `u128::from_le_bytes(addr.as_slice()[addr.len() - 16..])`: the last 16
bytes of the address, little-endian. -/
def addrOffBytes (bytes : List Nat) : Nat :=
  u128FromLeBytes (bytes.drop (bytes.length - 16))

/-- `MoveVMTracer::on_step` (lines 68-245): one tracer observation of
`instruction` at program counter `pc` with the given operand stack
(head = top).  `none` is a panic (`unreachable!`, failed `unwrap`,
out-of-range slice index). -/
def onStep (pc : Nat) (instruction : Bytecode) (stack : List ValueImpl)
    (m : TracerMaps) : Option TracerMaps :=
  match instruction with
  | .BrTrue offset =>
    match stack.get? 0 with
    | some (.boolv b) =>
      let next_pc := if b then offset else (pc + 1) % 2 ^ 16
      let map_offset := next_pc % MAP_SIZE
      some { m with cov := updf m.cov map_offset ((m.cov map_offset + 1) % 2 ^ 8 % 255) }
    | _ => none
  | .BrFalse offset =>
    match stack.get? 0 with
    | some (.boolv b) =>
      let next_pc := if !b then offset else (pc + 1) % 2 ^ 16
      let map_offset := next_pc % MAP_SIZE
      some { m with cov := updf m.cov map_offset ((m.cov map_offset + 1) % 2 ^ 8 % 255) }
    | _ => none
  | .Eq =>
    match stack.get? 0, stack.get? 1 with
    | some l, some r =>
      let d := distanceEq l r
      let map_offset := pc % MAP_SIZE
      some (if m.cmp map_offset > d then { m with cmp := updf m.cmp map_offset d } else m)
    | _, _ => none
  | .Neq => some m
  | .Lt | .Le =>
    match stack.get? 0, stack.get? 1 with
    | some l, some r =>
      let d := distanceLe l r
      let map_offset := pc % MAP_SIZE
      some (if m.cmp map_offset > d then { m with cmp := updf m.cmp map_offset d } else m)
    | _, _ => none
  | .Gt | .Ge =>
    match stack.get? 0, stack.get? 1 with
    | some l, some r =>
      let d := distanceGe l r
      let map_offset := pc % MAP_SIZE
      some (if m.cmp map_offset > d then { m with cmp := updf m.cmp map_offset d } else m)
    | _, _ => none
  | .MutBorrowGlobal sd | .ImmBorrowGlobal sd | .Exists sd | .MoveFrom sd
  | .MutBorrowGlobalGeneric sd | .ImmBorrowGlobalGeneric sd | .ExistsGeneric sd
  | .MoveFromGeneric sd =>
    match stack.get? 0 with
    | some (.address bytes) =>
      if 16 ≤ bytes.length then
        let addr_off := addrOffBytes bytes
        let map_offset := (addr_off + sd) % 2 ^ 128 % MAP_SIZE
        some (if m.read map_offset then m
              else { m with read := updf m.read map_offset true })
      else none
    | _ => none
  | .MoveTo sd | .MoveToGeneric sd =>
    match stack.get? 1 with
    | some (.structRef fields) =>
      match fields.get? 0 with
      | some (.address bytes) =>
        if 16 ≤ bytes.length then
          let addr_off := addrOffBytes bytes
          let map_offset := (addr_off + sd) % 2 ^ 128 % MAP_SIZE
          some (if m.write map_offset = 0 then { m with write := updf m.write map_offset 1 }
                else m)
        else none
      | _ => none
    | _ => none
  | .Call => some m
  | .CallGeneric => some m
  | .otherInstr => some m

/-- A sequence of tracer observations, each given as (pc, instruction,
operand stack), applied in order; a panic anywhere aborts the whole run. -/
def runSteps : List (Nat × Bytecode × List ValueImpl) → TracerMaps → Option TracerMaps
  | [], m => some m
  | (pc, instr, stk) :: rest, m =>
    match onStep pc instr stk m with
    | none => none
    | some m' => runSteps rest m'

/-- What the driver needs of a resolved `Function`. -/
structure FuncInfo where
  localCount : Nat
  isNative : Bool

/-- A driver frame: `Frame { pc, locals, function, ty_args }` restricted
to the fields the verified claims touch.  Locals are `Option`-valued:
`Locals::new` fills every slot with an invalid value. -/
structure Frame where
  pc : Nat
  locals : List (Option ValueImpl)

/-- `ExitCode` of the per-frame step function, with the function handle
already resolved (`function_from_handle` / `function_from_instantiation`
belong to the external resolver). -/
inductive ExitCode where
  | ret
  | call (f : FuncInfo)
  | callGeneric (f : FuncInfo)

/-- One return of the external `execute_code`: either an error (the revert
path) or an exit code; `stackAfter` is the interpreter operand stack as
`execute_code` left it (head = top). -/
inductive StepOut where
  | stepErr (stackAfter : List ValueImpl)
  | stepOk (code : ExitCode) (stackAfter : List ValueImpl)

/-- `Locals::store_loc(i, v)`: out-of-range is a panic. -/
def storeLoc (ls : List (Option ValueImpl)) (i : Nat) (v : ValueImpl) :
    Option (List (Option ValueImpl)) :=
  if i < ls.length then some (ls.set i (some v)) else none

/-- `Locals::new(n)`. -/
def newLocals (n : Nat) : List (Option ValueImpl) :=
  List.replicate n none

/-- The argument-transfer loop of the `Call`/`CallGeneric` arms:
`for i in 0..argc { locals.store_loc(argc - i - 1, operand_stack.pop()) }`,
phrased by recursion on the number of slots still to fill (the iteration
with counter `i` stores at index `argc - i - 1`, so the first pop lands in
the last slot). -/
def transferArgs : Nat → List (Option ValueImpl) → List ValueImpl →
    Option (List (Option ValueImpl) × List ValueImpl)
  | 0, ls, stk => some (ls, stk)
  | k + 1, ls, stk =>
    match stk with
    | [] => none
    | v :: stk' =>
      match storeLoc ls k v with
      | none => none
      | some ls' => transferArgs k ls' stk'

/-- The driver's mutable state inside the loop: the current frame, the
explicit call stack, and the interpreter operand stack. -/
structure DriverState where
  current : Frame
  callStack : List Frame
  stack : List ValueImpl

/-- The driver's handling of one exit code (lines 367-422):
`inr stack` breaks the loop (a `Return` with an empty call stack),
`inl` continues with the new driver state, `none` is a panic
(operand-stack underflow or `todo!` on a native callee). -/
def handleExit (code : ExitCode) (st : DriverState) :
    Option (DriverState ⊕ List ValueImpl) :=
  match code with
  | .ret =>
    match st.callStack with
    | [] => some (Sum.inr st.stack)
    | fr :: rest =>
      some (Sum.inl { current := { fr with pc := fr.pc + 1 }, callStack := rest,
                      stack := st.stack })
  | .call f | .callGeneric f =>
    match transferArgs f.localCount (newLocals f.localCount) st.stack with
    | none => none
    | some (ls, stk') =>
      if f.isNative then none
      else
        some (Sum.inl { current := { pc := 0, locals := ls },
                        callStack := st.current :: st.callStack, stack := stk' })

/-- The driver loop (lines 356-423) against an oracle script for
`execute_code`.  Returns `(reverted, final operand stack, number of steps
consumed)`; `none` when the script is exhausted or a panic occurs. -/
def runLoop : List StepOut → Frame → List Frame → List ValueImpl →
    Option (Bool × List ValueImpl × Nat)
  | [], _, _, _ => none
  | .stepErr s :: _, _, _, _ => some (true, s, 1)
  | .stepOk code s :: rest, cf, frames, _ =>
    match handleExit code { current := cf, callStack := frames, stack := s } with
    | none => none
    | some (Sum.inr fin) => some (false, fin, 1)
    | some (Sum.inl st') =>
      match runLoop rest st'.current st'.callStack st'.stack with
      | none => none
      | some (rev, fin, n) => some (rev, fin, n + 1)

/-- The result-extraction zip (lines 432-451): iterate the operand stack
from the BOTTOM in lockstep with the initial function's declared return
types, pushing `(type, value)` pairs.  Types are abstract tokens. -/
def extractOutput (stackBottomFirst : List ValueImpl) (retTys : List Nat) :
    List (Nat × ValueImpl) :=
  (stackBottomFirst.zip retTys).map (fun p => (p.2, p.1))

/-- `ExecutionResult` restricted to the fields the claims touch. -/
structure ExecResult where
  outputVars : List (Nat × ValueImpl)
  reverted : Bool

/-- `execute` (lines 310-458) against the oracle script: run the driver
loop from the initial frame with empty call stack and empty operand
stack, then extract the output.  `runLoop` keeps the final stack
top-first, so the bottom-first iteration of the source's `Vec` is its
reverse. -/
def executeModel (retTys : List Nat) (script : List StepOut) (initialFrame : Frame) :
    Option ExecResult :=
  match runLoop script initialFrame [] [] with
  | none => none
  | some (rev, fin, _) =>
    some { outputVars := extractOutput fin.reverse retTys, reverted := rev }

/-! ## Helper lemmas -/

theorem updf_apply_self {α : Type} (f : Nat → α) (i : Nat) (a : α) : updf f i a i = a := by
  simp [updf]

theorem updf_apply_ne {α : Type} (f : Nat → α) (i j : Nat) (a : α) (h : j ≠ i) :
    updf f i a j = f j := by
  simp [updf, h]

theorem updf_self_of_eq {α : Type} (f : Nat → α) (i : Nat) (a : α) (h : f i = a) :
    updf f i a = f := by
  funext j
  by_cases hj : j = i
  · subst hj; simp [updf, h]
  · simp [updf, hj]

theorem MAP_SIZE_dvd_pow16 : MAP_SIZE ∣ 2 ^ 16 := ⟨16, by norm_num [MAP_SIZE]⟩

theorem MAP_SIZE_dvd_pow128 : MAP_SIZE ∣ 2 ^ 128 := ⟨2 ^ 116, by norm_num [MAP_SIZE]⟩

theorem distance_zero_iff (c : Bool) (l v : Nat) :
    distance c l v = 0 ↔ (c = true ∨ l = v) := by
  cases c
  · simp [distance]
    split <;> omega
  · simp [distance]

theorem distance_decide_eq (l r : Nat) : distance (decide (l = r)) l r = 0 ↔ l = r := by
  rw [distance_zero_iff]; simp

theorem distance_decide_le (l r : Nat) : distance (decide (l ≤ r)) l r = 0 ↔ l ≤ r := by
  rw [distance_zero_iff]; simp only [decide_eq_true_eq]; omega

theorem distance_decide_ge (l r : Nat) : distance (decide (r ≤ l)) l r = 0 ↔ r ≤ l := by
  rw [distance_zero_iff]; simp only [decide_eq_true_eq]; omega

theorem distance_u256_eq (l r : Nat) :
    distance (decide (l = r)) (l % 2 ^ 128) (r % 2 ^ 128) = 0 ↔
      l % 2 ^ 128 = r % 2 ^ 128 := by
  rw [distance_zero_iff]
  simp only [decide_eq_true_eq]
  constructor
  · rintro (rfl | h)
    · rfl
    · exact h
  · exact fun h => Or.inr h

theorem distance_u256_le (l r : Nat) :
    distance (decide (l ≤ r)) (l % 2 ^ 128) (r % 2 ^ 128) = 0 ↔
      (l ≤ r ∨ l % 2 ^ 128 = r % 2 ^ 128) := by
  rw [distance_zero_iff]; simp only [decide_eq_true_eq]

theorem distance_u256_ge (l r : Nat) :
    distance (decide (r ≤ l)) (l % 2 ^ 128) (r % 2 ^ 128) = 0 ↔
      (r ≤ l ∨ l % 2 ^ 128 = r % 2 ^ 128) := by
  rw [distance_zero_iff]; simp only [decide_eq_true_eq]

/-- What a single tracer step may do to the maps: reads stay set, writes
stay 1, comparison distances never increase, coverage counters stay in
`[0, 254]` once they are. -/
def StepEffects (m m₁ : TracerMaps) : Prop :=
  (∀ i, m.read i = true → m₁.read i = true) ∧
  (∀ i, m.write i = 1 → m₁.write i = 1) ∧
  (∀ i, m₁.cmp i ≤ m.cmp i) ∧
  (∀ i, m.cov i ≤ 254 → m₁.cov i ≤ 254)

theorem stepEffects_rfl (m : TracerMaps) : StepEffects m m :=
  ⟨fun _ hi => hi, fun _ hi => hi, fun _ => le_refl _, fun _ hi => hi⟩

theorem stepEffects_trans {m m₁ m₂ : TracerMaps}
    (h1 : StepEffects m m₁) (h2 : StepEffects m₁ m₂) : StepEffects m m₂ :=
  ⟨fun i hi => h2.1 i (h1.1 i hi), fun i hi => h2.2.1 i (h1.2.1 i hi),
   fun i => le_trans (h2.2.2.1 i) (h1.2.2.1 i),
   fun i hi => h2.2.2.2 i (h1.2.2.2 i hi)⟩

theorem stepEffects_of_cov (m : TracerMaps) (off v : Nat) (hv : v ≤ 254) :
    StepEffects m { m with cov := updf m.cov off v } := by
  refine ⟨fun i hi => hi, fun i hi => hi, fun i => le_refl _, fun i hi => ?_⟩
  by_cases hio : i = off
  · subst hio; simpa [updf_apply_self]
  · simpa [updf_apply_ne _ _ _ _ hio]

theorem stepEffects_of_cmp (m : TracerMaps) (off d : Nat) (hd : d ≤ m.cmp off) :
    StepEffects m { m with cmp := updf m.cmp off d } := by
  refine ⟨fun i hi => hi, fun i hi => hi, fun i => ?_, fun i hi => hi⟩
  by_cases hio : i = off
  · subst hio; simpa [updf_apply_self]
  · simp [updf_apply_ne _ _ _ _ hio]

theorem stepEffects_of_read (m : TracerMaps) (off : Nat) :
    StepEffects m { m with read := updf m.read off true } := by
  refine ⟨fun i hi => ?_, fun i hi => hi, fun i => le_refl _, fun i hi => hi⟩
  by_cases hio : i = off
  · subst hio; simp [updf_apply_self]
  · simpa [updf_apply_ne _ _ _ _ hio]

theorem stepEffects_of_write (m : TracerMaps) (off : Nat) :
    StepEffects m { m with write := updf m.write off 1 } := by
  refine ⟨fun i hi => hi, fun i hi => ?_, fun i => le_refl _, fun i hi => hi⟩
  by_cases hio : i = off
  · subst hio; simp [updf_apply_self]
  · simpa [updf_apply_ne _ _ _ _ hio]

theorem mod255_le (x : Nat) : x % 255 ≤ 254 := by omega

/-- Every single tracer observation respects the per-step effects. -/
theorem onStep_effects (pc : Nat) (ins : Bytecode) (stk : List ValueImpl)
    (m m₁ : TracerMaps) (h : onStep pc ins stk m = some m₁) : StepEffects m m₁ := by
  cases ins <;> simp only [onStep] at h
  case BrTrue offset =>
    split at h
    · simp only [Option.some.injEq] at h
      subst h
      exact stepEffects_of_cov _ _ _ (mod255_le _)
    · exact Option.noConfusion h
  case BrFalse offset =>
    split at h
    · simp only [Option.some.injEq] at h
      subst h
      exact stepEffects_of_cov _ _ _ (mod255_le _)
    · exact Option.noConfusion h
  case Eq =>
    split at h
    · simp only [Option.some.injEq] at h
      subst h
      split
      · next hgt => exact stepEffects_of_cmp _ _ _ (le_of_lt hgt)
      · exact stepEffects_rfl m
    · exact Option.noConfusion h
  case Neq =>
    simp only [Option.some.injEq] at h
    subst h
    exact stepEffects_rfl m
  case Lt =>
    split at h
    · simp only [Option.some.injEq] at h
      subst h
      split
      · next hgt => exact stepEffects_of_cmp _ _ _ (le_of_lt hgt)
      · exact stepEffects_rfl m
    · exact Option.noConfusion h
  case Le =>
    split at h
    · simp only [Option.some.injEq] at h
      subst h
      split
      · next hgt => exact stepEffects_of_cmp _ _ _ (le_of_lt hgt)
      · exact stepEffects_rfl m
    · exact Option.noConfusion h
  case Gt =>
    split at h
    · simp only [Option.some.injEq] at h
      subst h
      split
      · next hgt => exact stepEffects_of_cmp _ _ _ (le_of_lt hgt)
      · exact stepEffects_rfl m
    · exact Option.noConfusion h
  case Ge =>
    split at h
    · simp only [Option.some.injEq] at h
      subst h
      split
      · next hgt => exact stepEffects_of_cmp _ _ _ (le_of_lt hgt)
      · exact stepEffects_rfl m
    · exact Option.noConfusion h
  case MutBorrowGlobal sd =>
    split at h
    · split at h
      · simp only [Option.some.injEq] at h
        subst h
        split
        · exact stepEffects_rfl m
        · exact stepEffects_of_read _ _
      · exact Option.noConfusion h
    · exact Option.noConfusion h
  case ImmBorrowGlobal sd =>
    split at h
    · split at h
      · simp only [Option.some.injEq] at h
        subst h
        split
        · exact stepEffects_rfl m
        · exact stepEffects_of_read _ _
      · exact Option.noConfusion h
    · exact Option.noConfusion h
  case Exists sd =>
    split at h
    · split at h
      · simp only [Option.some.injEq] at h
        subst h
        split
        · exact stepEffects_rfl m
        · exact stepEffects_of_read _ _
      · exact Option.noConfusion h
    · exact Option.noConfusion h
  case MoveFrom sd =>
    split at h
    · split at h
      · simp only [Option.some.injEq] at h
        subst h
        split
        · exact stepEffects_rfl m
        · exact stepEffects_of_read _ _
      · exact Option.noConfusion h
    · exact Option.noConfusion h
  case MutBorrowGlobalGeneric sd =>
    split at h
    · split at h
      · simp only [Option.some.injEq] at h
        subst h
        split
        · exact stepEffects_rfl m
        · exact stepEffects_of_read _ _
      · exact Option.noConfusion h
    · exact Option.noConfusion h
  case ImmBorrowGlobalGeneric sd =>
    split at h
    · split at h
      · simp only [Option.some.injEq] at h
        subst h
        split
        · exact stepEffects_rfl m
        · exact stepEffects_of_read _ _
      · exact Option.noConfusion h
    · exact Option.noConfusion h
  case ExistsGeneric sd =>
    split at h
    · split at h
      · simp only [Option.some.injEq] at h
        subst h
        split
        · exact stepEffects_rfl m
        · exact stepEffects_of_read _ _
      · exact Option.noConfusion h
    · exact Option.noConfusion h
  case MoveFromGeneric sd =>
    split at h
    · split at h
      · simp only [Option.some.injEq] at h
        subst h
        split
        · exact stepEffects_rfl m
        · exact stepEffects_of_read _ _
      · exact Option.noConfusion h
    · exact Option.noConfusion h
  case MoveTo sd =>
    split at h
    · split at h
      · split at h
        · simp only [Option.some.injEq] at h
          subst h
          split
          · exact stepEffects_of_write _ _
          · exact stepEffects_rfl m
        · exact Option.noConfusion h
      · exact Option.noConfusion h
    · exact Option.noConfusion h
  case MoveToGeneric sd =>
    split at h
    · split at h
      · split at h
        · simp only [Option.some.injEq] at h
          subst h
          split
          · exact stepEffects_of_write _ _
          · exact stepEffects_rfl m
        · exact Option.noConfusion h
      · exact Option.noConfusion h
    · exact Option.noConfusion h
  case Call =>
    simp only [Option.some.injEq] at h
    subst h
    exact stepEffects_rfl m
  case CallGeneric =>
    simp only [Option.some.injEq] at h
    subst h
    exact stepEffects_rfl m
  case otherInstr =>
    simp only [Option.some.injEq] at h
    subst h
    exact stepEffects_rfl m

/-- The per-step effects compose over any observation sequence. -/
theorem runSteps_effects (steps : List (Nat × Bytecode × List ValueImpl)) :
    ∀ m m' : TracerMaps, runSteps steps m = some m' → StepEffects m m' := by
  induction steps with
  | nil =>
    intro m m' h
    simp only [runSteps, Option.some.injEq] at h
    subst h
    exact stepEffects_rfl m
  | cons s rest ih =>
    obtain ⟨pc, instr, stk⟩ := s
    intro m m' h
    simp only [runSteps] at h
    cases ho : onStep pc instr stk m with
    | none => rw [ho] at h; exact Option.noConfusion h
    | some m₁ =>
      rw [ho] at h
      exact stepEffects_trans (onStep_effects pc instr stk m m₁ ho) (ih m₁ m' h)

/-! ## Claims C1 and C2 -/

/-- Claim C1 (code bug).  The source initializes the comparison-distance
map to all ZEROS — `MOVE_CMP_MAP: [u128; MAP_SIZE] = [0; MAP_SIZE]`
(line 35) — not to `u128::MAX` as the spec states.  Consequently the
min-update `if MOVE_CMP_MAP[off] > distance { ... }` of the comparison
arms can never fire from the initial map: a tracer step on `Eq` leaves
every entry of the zero map at zero. -/
theorem cmp_map_initialized_to_zero :
    (∀ i, initMaps.cmp i = 0) ∧ initMaps.cmp 0 ≠ u128Max ∧
    (∀ pc stack m', onStep pc Bytecode.Eq stack initMaps = some m' →
      ∀ i, m'.cmp i = 0) := by
  refine ⟨fun i => rfl, ?_, ?_⟩
  · show (0 : Nat) ≠ u128Max
    norm_num [u128Max]
  · intro pc stack m' h i
    have heff := (onStep_effects pc Bytecode.Eq stack initMaps m' h).2.2.1 i
    exact Nat.le_zero.mp heff

/-- Claim C2 counterexample.  For u256 operands the tracer compares the
FULL 256-bit values in the predicate but subtracts only the low 128 bits
(`unchecked_as_u128`), so the distance can be zero while the predicate
fails: at `l = 2^128`, `r = 0` the low halves agree, yet `l ≠ r`,
`¬(l ≤ r)` and `¬(r ≥ l)`. -/
theorem distance_u256_zero_despite_predicate_failing :
    distanceEq (ValueImpl.u256v (2 ^ 128)) (ValueImpl.u256v 0) = 0 ∧
      (2 ^ 128 : Nat) ≠ 0 ∧
    distanceLe (ValueImpl.u256v (2 ^ 128)) (ValueImpl.u256v 0) = 0 ∧
      ¬(2 ^ 128 : Nat) ≤ 0 ∧
    distanceGe (ValueImpl.u256v 0) (ValueImpl.u256v (2 ^ 128)) = 0 ∧
      ¬(2 ^ 128 : Nat) ≤ 0 := by
  refine ⟨?_, by norm_num, ?_, by norm_num, ?_, by norm_num⟩
  · show distance (decide ((2 ^ 128 : Nat) = 0)) (2 ^ 128 % 2 ^ 128) (0 % 2 ^ 128) = 0
    norm_num [distance]
  · show distance (decide ((2 ^ 128 : Nat) ≤ 0)) (2 ^ 128 % 2 ^ 128) (0 % 2 ^ 128) = 0
    norm_num [distance]
  · show distance (decide ((2 ^ 128 : Nat) ≤ 0)) (0 % 2 ^ 128) (2 ^ 128 % 2 ^ 128) = 0
    norm_num [distance]

/-- Claim C2 (amended).  For operand pairs of width u8..u128 the distance
is zero exactly when the predicate holds (`distance_eq = 0 ⇔ l = r`,
`distance_le = 0 ⇔ l ≤ r`, `distance_ge = 0 ⇔ l ≥ r`).  For u256 pairs,
where the subtraction is performed on the low 128 bits while the
predicate is tested on the full values, the distance is zero exactly when
the predicate holds OR the two low 128-bit halves coincide (for equality
this collapses to the low halves coinciding). -/
theorem distance_zero_iff_predicate (l r : Nat) :
    (distanceEq (ValueImpl.u8v l) (ValueImpl.u8v r) = 0 ↔ l = r) ∧
    (distanceEq (ValueImpl.u16v l) (ValueImpl.u16v r) = 0 ↔ l = r) ∧
    (distanceEq (ValueImpl.u32v l) (ValueImpl.u32v r) = 0 ↔ l = r) ∧
    (distanceEq (ValueImpl.u64v l) (ValueImpl.u64v r) = 0 ↔ l = r) ∧
    (distanceEq (ValueImpl.u128v l) (ValueImpl.u128v r) = 0 ↔ l = r) ∧
    (distanceLe (ValueImpl.u8v l) (ValueImpl.u8v r) = 0 ↔ l ≤ r) ∧
    (distanceLe (ValueImpl.u16v l) (ValueImpl.u16v r) = 0 ↔ l ≤ r) ∧
    (distanceLe (ValueImpl.u32v l) (ValueImpl.u32v r) = 0 ↔ l ≤ r) ∧
    (distanceLe (ValueImpl.u64v l) (ValueImpl.u64v r) = 0 ↔ l ≤ r) ∧
    (distanceLe (ValueImpl.u128v l) (ValueImpl.u128v r) = 0 ↔ l ≤ r) ∧
    (distanceGe (ValueImpl.u8v l) (ValueImpl.u8v r) = 0 ↔ r ≤ l) ∧
    (distanceGe (ValueImpl.u16v l) (ValueImpl.u16v r) = 0 ↔ r ≤ l) ∧
    (distanceGe (ValueImpl.u32v l) (ValueImpl.u32v r) = 0 ↔ r ≤ l) ∧
    (distanceGe (ValueImpl.u64v l) (ValueImpl.u64v r) = 0 ↔ r ≤ l) ∧
    (distanceGe (ValueImpl.u128v l) (ValueImpl.u128v r) = 0 ↔ r ≤ l) ∧
    (distanceEq (ValueImpl.u256v l) (ValueImpl.u256v r) = 0 ↔
      l % 2 ^ 128 = r % 2 ^ 128) ∧
    (distanceLe (ValueImpl.u256v l) (ValueImpl.u256v r) = 0 ↔
      (l ≤ r ∨ l % 2 ^ 128 = r % 2 ^ 128)) ∧
    (distanceGe (ValueImpl.u256v l) (ValueImpl.u256v r) = 0 ↔
      (r ≤ l ∨ l % 2 ^ 128 = r % 2 ^ 128)) :=
  ⟨distance_decide_eq l r, distance_decide_eq l r, distance_decide_eq l r,
   distance_decide_eq l r, distance_decide_eq l r,
   distance_decide_le l r, distance_decide_le l r, distance_decide_le l r,
   distance_decide_le l r, distance_decide_le l r,
   distance_decide_ge l r, distance_decide_ge l r, distance_decide_ge l r,
   distance_decide_ge l r, distance_decide_ge l r,
   distance_u256_eq l r, distance_u256_le l r, distance_u256_ge l r⟩

/-! ## Claim C3 -/

theorem onStep_brtrue (pc offset : Nat) (b : Bool) (rest : List ValueImpl)
    (m : TracerMaps) :
    onStep pc (Bytecode.BrTrue offset) (ValueImpl.boolv b :: rest) m =
      some { m with cov := (updf m.cov ((if b then offset else (pc + 1) % 2 ^ 16) % MAP_SIZE)
        ((m.cov ((if b then offset else (pc + 1) % 2 ^ 16) % MAP_SIZE) + 1) % 2 ^ 8 % 255)) } :=
  rfl

theorem onStep_brfalse (pc offset : Nat) (b : Bool) (rest : List ValueImpl)
    (m : TracerMaps) :
    onStep pc (Bytecode.BrFalse offset) (ValueImpl.boolv b :: rest) m =
      some { m with cov := (updf m.cov ((if !b then offset else (pc + 1) % 2 ^ 16) % MAP_SIZE)
        ((m.cov ((if !b then offset else (pc + 1) % 2 ^ 16) % MAP_SIZE) + 1) % 2 ^ 8 % 255)) } :=
  rfl

theorem cov_arm_eq (pc offset : Nat) (c : Bool) (m : TracerMaps)
    (h : m.cov ((if c then offset else pc + 1) % MAP_SIZE) ≤ 254) :
    ({ m with cov := (updf m.cov ((if c then offset else (pc + 1) % 2 ^ 16) % MAP_SIZE)
       ((m.cov ((if c then offset else (pc + 1) % 2 ^ 16) % MAP_SIZE) + 1) % 2 ^ 8 % 255)) }
      : TracerMaps) =
    { m with cov := (updf m.cov ((if c then offset else pc + 1) % MAP_SIZE)
       ((m.cov ((if c then offset else pc + 1) % MAP_SIZE) + 1) % 255)) } := by
  have hidx : (if c then offset else (pc + 1) % 2 ^ 16) % MAP_SIZE
      = (if c then offset else pc + 1) % MAP_SIZE := by
    cases c
    · simpa using Nat.mod_mod_of_dvd (pc + 1) MAP_SIZE_dvd_pow16
    · rfl
  rw [hidx]
  have hv : (m.cov ((if c then offset else pc + 1) % MAP_SIZE) + 1) % 2 ^ 8
      = m.cov ((if c then offset else pc + 1) % MAP_SIZE) + 1 :=
    Nat.mod_eq_of_lt (by omega)
  rw [hv]

/-- Claim C3.  On `BrTrue(offset)` with boolean top-of-stack `b`, the
tracer bumps `cov[next_pc mod MAP_SIZE]` to `(previous + 1) mod 255`
where `next_pc = offset` if `b` and `pc + 1` otherwise; on
`BrFalse(offset)` the same with `next_pc = offset` if `!b` and `pc + 1`
otherwise.  The resulting map equals a single-point `updf` update, so no
other `cov` entry (and no other map) changes.  The `≤ 254` hypotheses are
the coverage-range invariant established in claim C9. -/
theorem brtrue_brfalse_cov_update (pc offset : Nat) (b : Bool) (rest : List ValueImpl)
    (m : TracerMaps)
    (h1 : m.cov ((if b then offset else pc + 1) % MAP_SIZE) ≤ 254)
    (h2 : m.cov ((if !b then offset else pc + 1) % MAP_SIZE) ≤ 254) :
    onStep pc (Bytecode.BrTrue offset) (ValueImpl.boolv b :: rest) m =
      some { m with cov := (updf m.cov ((if b then offset else pc + 1) % MAP_SIZE)
        ((m.cov ((if b then offset else pc + 1) % MAP_SIZE) + 1) % 255)) } ∧
    onStep pc (Bytecode.BrFalse offset) (ValueImpl.boolv b :: rest) m =
      some { m with cov := (updf m.cov ((if !b then offset else pc + 1) % MAP_SIZE)
        ((m.cov ((if !b then offset else pc + 1) % MAP_SIZE) + 1) % 255)) } := by
  constructor
  · rw [onStep_brtrue, cov_arm_eq pc offset b m h1]
  · rw [onStep_brfalse, cov_arm_eq pc offset (!b) m h2]

/-- Witness for C3 at `pc = 5`, `offset = 9`, `b = true`, the initial maps. -/
theorem brtrue_brfalse_cov_update_witness :
    onStep 5 (Bytecode.BrTrue 9) [ValueImpl.boolv true] initMaps =
      some { initMaps with cov := (updf initMaps.cov (9 % MAP_SIZE)
        ((initMaps.cov (9 % MAP_SIZE) + 1) % 255)) } ∧
    onStep 5 (Bytecode.BrFalse 9) [ValueImpl.boolv true] initMaps =
      some { initMaps with cov := (updf initMaps.cov (6 % MAP_SIZE)
        ((initMaps.cov (6 % MAP_SIZE) + 1) % 255)) } :=
  brtrue_brfalse_cov_update 5 9 true [] initMaps (by decide) (by decide)

/-! ## Claim C4 -/

theorem get?_set_self {α : Type} (l : List α) (i : Nat) (a : α) (h : i < l.length) :
    (l.set i a).get? i = some a := by
  induction l generalizing i with
  | nil => simp at h
  | cons x xs ih =>
    cases i with
    | zero => rfl
    | succ n =>
      have hn : n < xs.length := by simp at h; omega
      exact ih n hn

theorem get?_set_ne {α : Type} (l : List α) (i j : Nat) (a : α) (h : j ≠ i) :
    (l.set i a).get? j = l.get? j := by
  induction l generalizing i j with
  | nil => rfl
  | cons x xs ih =>
    cases i with
    | zero =>
      cases j with
      | zero => exact absurd rfl h
      | succ n => rfl
    | succ n =>
      cases j with
      | zero => rfl
      | succ k => exact ih n k (fun hk => h (by rw [hk]))

/-- The argument-transfer loop stores the `j`-th popped value into local
`k - j`, so local `i` ends up with the stack value at 0-based depth
`k - 1 - i`, the stack loses exactly its first `k` values, and locals at
index `≥ k` are untouched. -/
theorem transferArgs_spec (k : Nat) :
    ∀ (ls : List (Option ValueImpl)) (stk : List ValueImpl),
      k ≤ ls.length → k ≤ stk.length →
      ∃ ls', transferArgs k ls stk = some (ls', stk.drop k) ∧
        ls'.length = ls.length ∧
        (∀ i, i < k → ls'.get? i = (stk.get? (k - 1 - i)).map some) ∧
        (∀ i, k ≤ i → ls'.get? i = ls.get? i) := by
  induction k with
  | zero =>
    intro ls stk _ _
    exact ⟨ls, rfl, rfl, fun i hi => absurd hi (Nat.not_lt_zero i), fun i _ => rfl⟩
  | succ k ih =>
    intro ls stk hls hstk
    cases stk with
    | nil => simp at hstk
    | cons v stk' =>
      have hk : k < ls.length := lt_of_lt_of_le (Nat.lt_succ_self k) hls
      have hsl : storeLoc ls k v = some (ls.set k (some v)) := by
        simp [storeLoc, hk]
      have hls' : k ≤ (ls.set k (some v)).length := by
        rw [List.length_set]; omega
      have hstk' : k ≤ stk'.length := by simp at hstk; omega
      obtain ⟨ls', htr, hlen, hlt, hge⟩ := ih (ls.set k (some v)) stk' hls' hstk'
      refine ⟨ls', ?_, ?_, ?_, ?_⟩
      · show transferArgs (k + 1) ls (v :: stk') = some (ls', (v :: stk').drop (k + 1))
        simp only [transferArgs, hsl]
        exact htr
      · rw [hlen, List.length_set]
      · intro i hi
        rcases Nat.lt_succ_iff_lt_or_eq.mp hi with hik | hik
        · rw [hlt i hik]
          have h1 : k + 1 - 1 - i = (k - 1 - i) + 1 := by omega
          rw [h1]
          rfl
        · subst hik
          rw [hge i (le_refl i), get?_set_self ls i (some v) hk]
          have h0 : i + 1 - 1 - i = 0 := by omega
          rw [h0]
          rfl
      · intro i hi
        rw [hge i (by omega), get?_set_ne ls k i (some v) (by omega)]

/-- Claim C4.  When the driver handles an `ExitCode::Call` or
`ExitCode::CallGeneric` transition with `argc = callee.local_count()` and
at least `argc` values on the operand stack, the callee frame is
installed at `pc = 0`; its local `i` (for `i < argc`) holds the value
that sat at operand-stack depth `argc - i` (top = depth 1, i.e. 0-based
index `argc - 1 - i`); the operand stack shrinks by exactly `argc`
values; and the caller frame is pushed on the driver call stack. -/
theorem call_transfers_args_into_locals (f : FuncInfo) (st : DriverState)
    (ls : List (Option ValueImpl)) (stk' : List ValueImpl)
    (hnative : f.isNative = false)
    (hlen : f.localCount ≤ st.stack.length)
    (htr : transferArgs f.localCount (newLocals f.localCount) st.stack = some (ls, stk')) :
    handleExit (ExitCode.call f) st =
      some (Sum.inl { current := { pc := 0, locals := ls },
                      callStack := st.current :: st.callStack, stack := stk' }) ∧
    handleExit (ExitCode.callGeneric f) st =
      some (Sum.inl { current := { pc := 0, locals := ls },
                      callStack := st.current :: st.callStack, stack := stk' }) ∧
    stk' = st.stack.drop f.localCount ∧
    st.stack.length = stk'.length + f.localCount ∧
    ls.length = f.localCount ∧
    (∀ i, i < f.localCount →
      ls.get? i = (st.stack.get? (f.localCount - 1 - i)).map some) := by
  have hnew : f.localCount ≤ (newLocals f.localCount).length := by
    simp [newLocals]
  obtain ⟨ls₀, htr₀, hlen₀, hlt₀, _⟩ :=
    transferArgs_spec f.localCount (newLocals f.localCount) st.stack hnew hlen
  rw [htr₀] at htr
  simp only [Option.some.injEq, Prod.mk.injEq] at htr
  obtain ⟨hls, hstk⟩ := htr
  subst hls
  subst hstk
  refine ⟨?_, ?_, rfl, ?_, ?_, hlt₀⟩
  · simp [handleExit, htr₀, hnative]
  · simp [handleExit, htr₀, hnative]
  · rw [List.length_drop]
    omega
  · rw [hlen₀]
    simp [newLocals]

/-- Witness for C4: a callee with 2 locals against the 3-deep stack
`[1, 2, 3]` (top first); locals become `[some 2, some 1]` and `[3]`
remains. -/
theorem call_transfers_args_into_locals_witness :
    handleExit (ExitCode.call { localCount := 2, isNative := false })
        { current := { pc := 7, locals := [] }, callStack := [],
          stack := [ValueImpl.u8v 1, ValueImpl.u8v 2, ValueImpl.u8v 3] } =
      some (Sum.inl
        { current := { pc := 0, locals := [some (ValueImpl.u8v 2), some (ValueImpl.u8v 1)] },
          callStack := [{ pc := 7, locals := [] }],
          stack := [ValueImpl.u8v 3] }) ∧
    handleExit (ExitCode.callGeneric { localCount := 2, isNative := false })
        { current := { pc := 7, locals := [] }, callStack := [],
          stack := [ValueImpl.u8v 1, ValueImpl.u8v 2, ValueImpl.u8v 3] } =
      some (Sum.inl
        { current := { pc := 0, locals := [some (ValueImpl.u8v 2), some (ValueImpl.u8v 1)] },
          callStack := [{ pc := 7, locals := [] }],
          stack := [ValueImpl.u8v 3] }) ∧
    [ValueImpl.u8v 3] =
      ([ValueImpl.u8v 1, ValueImpl.u8v 2, ValueImpl.u8v 3] : List ValueImpl).drop 2 ∧
    ([ValueImpl.u8v 1, ValueImpl.u8v 2, ValueImpl.u8v 3] : List ValueImpl).length =
      ([ValueImpl.u8v 3] : List ValueImpl).length + 2 ∧
    ([some (ValueImpl.u8v 2), some (ValueImpl.u8v 1)] : List (Option ValueImpl)).length = 2 ∧
    (∀ i, i < 2 →
      ([some (ValueImpl.u8v 2), some (ValueImpl.u8v 1)] : List (Option ValueImpl)).get? i =
        (([ValueImpl.u8v 1, ValueImpl.u8v 2, ValueImpl.u8v 3] :
            List ValueImpl).get? (2 - 1 - i)).map some) :=
  call_transfers_args_into_locals { localCount := 2, isNative := false }
    { current := { pc := 7, locals := [] }, callStack := [],
      stack := [ValueImpl.u8v 1, ValueImpl.u8v 2, ValueImpl.u8v 3] }
    [some (ValueImpl.u8v 2), some (ValueImpl.u8v 1)] [ValueImpl.u8v 3]
    rfl (by decide) rfl

/-! ## Claim C5 -/

theorem extractOutput_length (s : List ValueImpl) (ts : List Nat) :
    (extractOutput s ts).length = min s.length ts.length := by
  simp [extractOutput]

theorem extractOutput_get? (s : List ValueImpl) (ts : List Nat) (i : Nat) :
    (extractOutput s ts).get? i =
      match s.get? i, ts.get? i with
      | some v, some t => some (t, v)
      | _, _ => none := by
  induction s generalizing ts i with
  | nil => cases ts <;> cases i <;> rfl
  | cons v s ih =>
    cases ts with
    | nil =>
      cases i with
      | zero => rfl
      | succ n =>
        rcases hq : (v :: s).get? (n + 1) with _ | q <;> rfl
    | cons t ts' =>
      cases i with
      | zero => rfl
      | succ n => exact ih ts' n

/-- Claim C5.  For every run of `execute` that reaches the extractor, if
the initial function declares `k` return types and the final operand
stack holds `m` values, the output has exactly `min k m` entries, formed
by pairing the operand stack FROM THE BOTTOM with the declared return
types in order; excess stack values are ignored (and excess return types
get no entry). -/
theorem execute_output_zip_min (retTys : List Nat) (script : List StepOut) (f0 : Frame)
    (rev : Bool) (fin : List ValueImpl) (n : Nat)
    (h : runLoop script f0 [] [] = some (rev, fin, n)) :
    executeModel retTys script f0 =
      some { outputVars := extractOutput fin.reverse retTys, reverted := rev } ∧
    (extractOutput fin.reverse retTys).length = min fin.length retTys.length ∧
    (∀ i, (extractOutput fin.reverse retTys).get? i =
      match fin.reverse.get? i, retTys.get? i with
      | some v, some t => some (t, v)
      | _, _ => none) := by
  refine ⟨?_, ?_, fun i => extractOutput_get? fin.reverse retTys i⟩
  · unfold executeModel
    rw [h]
  · rw [extractOutput_length, List.length_reverse]

/-- Witness for C5: a run returning one value against one declared
return type. -/
theorem execute_output_zip_min_witness :
    executeModel [5] [StepOut.stepOk ExitCode.ret [ValueImpl.u8v 7]] { pc := 0, locals := [] } =
      some { outputVars := extractOutput (List.reverse [ValueImpl.u8v 7]) [5],
             reverted := false } ∧
    (extractOutput (List.reverse [ValueImpl.u8v 7]) [5]).length =
      min ([ValueImpl.u8v 7] : List ValueImpl).length ([5] : List Nat).length ∧
    (∀ i, (extractOutput (List.reverse [ValueImpl.u8v 7]) [5]).get? i =
      match (List.reverse [ValueImpl.u8v 7]).get? i, ([5] : List Nat).get? i with
      | some v, some t => some (t, v)
      | _, _ => none) :=
  execute_output_zip_min [5] [StepOut.stepOk ExitCode.ret [ValueImpl.u8v 7]]
    { pc := 0, locals := [] } false [ValueImpl.u8v 7] 1 rfl

/-! ## Claim C6 -/

/-- In any completed driver loop, at least one step was consumed, and the
run reverted exactly when the LAST consumed oracle entry was an error
(the loop breaks immediately on error, so an error can only be last). -/
theorem runLoop_err_iff (script : List StepOut) :
    ∀ (cf : Frame) (frames : List Frame) (stk : List ValueImpl)
      (rev : Bool) (fin : List ValueImpl) (n : Nat),
      runLoop script cf frames stk = some (rev, fin, n) →
      1 ≤ n ∧ ((rev = true) ↔ (∃ s, script.get? (n - 1) = some (StepOut.stepErr s))) := by
  induction script with
  | nil =>
    intro cf frames stk rev fin n h
    exact absurd h (by simp [runLoop])
  | cons so rest ih =>
    intro cf frames stk rev fin n h
    cases so with
    | stepErr s =>
      simp only [runLoop, Option.some.injEq, Prod.mk.injEq] at h
      obtain ⟨h1, _, h3⟩ := h
      subst h1
      subst h3
      refine ⟨le_refl 1, ?_⟩
      constructor
      · intro _
        exact ⟨s, rfl⟩
      · intro _
        rfl
    | stepOk code s =>
      simp only [runLoop] at h
      cases hhe : handleExit code { current := cf, callStack := frames, stack := s } with
      | none =>
        simp only [hhe] at h
        exact Option.noConfusion h
      | some x =>
        simp only [hhe] at h
        cases x with
        | inr fin' =>
          simp only [Option.some.injEq, Prod.mk.injEq] at h
          obtain ⟨h1, _, h3⟩ := h
          subst h1
          subst h3
          refine ⟨le_refl 1, ?_⟩
          constructor
          · intro hfalse
            exact absurd hfalse (by simp)
          · rintro ⟨s', hs'⟩
            simp at hs'
        | inl st' =>
          cases hrec : runLoop rest st'.current st'.callStack st'.stack with
          | none =>
            simp only [hrec] at h
            exact Option.noConfusion h
          | some y =>
            obtain ⟨rev₀, fin₀, n₀⟩ := y
            simp only [hrec, Option.some.injEq, Prod.mk.injEq] at h
            obtain ⟨h1, _, h3⟩ := h
            subst h1
            subst h3
            obtain ⟨hn₀, hiff⟩ := ih st'.current st'.callStack st'.stack rev₀ fin₀ n₀ hrec
            refine ⟨by omega, ?_⟩
            rw [hiff]
            obtain ⟨m', rfl⟩ : ∃ m', n₀ = m' + 1 := ⟨n₀ - 1, by omega⟩
            constructor
            · rintro ⟨s', hs'⟩
              exact ⟨s', by simpa using hs'⟩
            · rintro ⟨s', hs'⟩
              exact ⟨s', by simpa using hs'⟩

/-- Claim C6.  A completed `execute` run reverts exactly when some
invocation of the step function returned an error (necessarily the last
consumed oracle entry, since the loop breaks there); a loop that ends via
`ExitCode::Return` with an empty driver call stack yields
`reverted = false`; and in both cases a complete `ExecutionResult` is
produced — an erroring step always yields `some` (revert is a value, not
a panic). -/
theorem execute_reverted_iff_step_error (retTys : List Nat) (script : List StepOut)
    (f0 : Frame) (rev : Bool) (fin : List ValueImpl) (n : Nat)
    (h : runLoop script f0 [] [] = some (rev, fin, n)) :
    ((rev = true) ↔ (∃ s, script.get? (n - 1) = some (StepOut.stepErr s))) ∧
    executeModel retTys script f0 =
      some { outputVars := extractOutput fin.reverse retTys, reverted := rev } ∧
    (∀ (s : List ValueImpl) (rest : List StepOut) (cf : Frame) (frames : List Frame)
        (stk : List ValueImpl),
      runLoop (StepOut.stepErr s :: rest) cf frames stk = some (true, s, 1)) ∧
    (∀ (s : List ValueImpl) (rest : List StepOut) (cf : Frame) (stk : List ValueImpl),
      runLoop (StepOut.stepOk ExitCode.ret s :: rest) cf [] stk = some (false, s, 1)) := by
  refine ⟨(runLoop_err_iff script f0 [] [] rev fin n h).2, ?_,
    fun s rest cf frames stk => rfl, fun s rest cf stk => rfl⟩
  unfold executeModel
  rw [h]

/-- Witness for C6: a one-step run that returns with an empty call stack
does not revert, and the result is produced. -/
theorem execute_reverted_iff_step_error_witness :
    ((false = true) ↔
      (∃ s, ([StepOut.stepOk ExitCode.ret []] : List StepOut).get? (1 - 1) =
        some (StepOut.stepErr s))) ∧
    executeModel [] [StepOut.stepOk ExitCode.ret []] { pc := 0, locals := [] } =
      some { outputVars := extractOutput (List.reverse ([] : List ValueImpl)) [],
             reverted := false } ∧
    (∀ (s : List ValueImpl) (rest : List StepOut) (cf : Frame) (frames : List Frame)
        (stk : List ValueImpl),
      runLoop (StepOut.stepErr s :: rest) cf frames stk = some (true, s, 1)) ∧
    (∀ (s : List ValueImpl) (rest : List StepOut) (cf : Frame) (stk : List ValueImpl),
      runLoop (StepOut.stepOk ExitCode.ret s :: rest) cf [] stk = some (false, s, 1)) :=
  execute_reverted_iff_step_error [] [StepOut.stepOk ExitCode.ret []]
    { pc := 0, locals := [] } false [] 1 rfl

/-! ## Claim C7 -/

theorem read_arm_shape (m : TracerMaps) (off : Nat) :
    (if m.read off then m else { m with read := updf m.read off true }) =
    { m with read := updf m.read off true } := by
  by_cases hr : m.read off
  · rw [if_pos hr, updf_self_of_eq m.read off true hr]
  · rw [if_neg hr]

theorem write_arm_shape (m : TracerMaps) (off : Nat) (hw : m.write off ≤ 1) :
    (if m.write off = 0 then { m with write := updf m.write off 1 } else m) =
    { m with write := updf m.write off 1 } := by
  by_cases h0 : m.write off = 0
  · rw [if_pos h0]
  · rw [if_neg h0, updf_self_of_eq m.write off 1 (by omega)]

theorem read_arm_value (sd : Nat) (bytes : List Nat) (m : TracerMaps)
    (hlen : 16 ≤ bytes.length) :
    (if 16 ≤ bytes.length then
        some (if m.read ((addrOffBytes bytes + sd) % 2 ^ 128 % MAP_SIZE) then m
              else { m with read :=
                (updf m.read ((addrOffBytes bytes + sd) % 2 ^ 128 % MAP_SIZE) true) })
      else none) =
    some { m with read := updf m.read ((addrOffBytes bytes + sd) % MAP_SIZE) true } := by
  rw [if_pos hlen, Nat.mod_mod_of_dvd _ MAP_SIZE_dvd_pow128, read_arm_shape]

theorem write_arm_value (sd : Nat) (bytes : List Nat) (m : TracerMaps)
    (hlen : 16 ≤ bytes.length)
    (hw : m.write ((addrOffBytes bytes + sd) % MAP_SIZE) ≤ 1) :
    (if 16 ≤ bytes.length then
        some (if m.write ((addrOffBytes bytes + sd) % 2 ^ 128 % MAP_SIZE) = 0 then
                { m with write :=
                  (updf m.write ((addrOffBytes bytes + sd) % 2 ^ 128 % MAP_SIZE) 1) }
              else m)
      else none) =
    some { m with write := updf m.write ((addrOffBytes bytes + sd) % MAP_SIZE) 1 } := by
  rw [if_pos hlen, Nat.mod_mod_of_dvd _ MAP_SIZE_dvd_pow128, write_arm_shape _ _ hw]

/-- Claim C7.  On the eight global-access opcodes carrying struct index
`sd` with an address on top of the stack, the tracer sets
`read[(addr_off + sd) mod MAP_SIZE]` to true, where `addr_off` is the
address's low 16 bytes read as a little-endian u128; on
`MoveTo`/`MoveToGeneric` the address is instead obtained by borrowing
field 0 of the second-from-top struct reference and dereferencing it, and
`write[(addr_off + sd) mod MAP_SIZE]` is set to 1.  (The u128
`unchecked_add` wrap is absorbed by `mod MAP_SIZE` because `MAP_SIZE`
divides `2 ^ 128`; the `≤ 1` hypothesis records that the write map only
ever holds 0 or 1, claim C8's invariant.) -/
theorem global_access_read_write_update (pc sd : Nat) (bytes : List Nat)
    (rest : List ValueImpl) (v0 : ValueImpl) (fields : List ValueImpl) (m : TracerMaps)
    (hlen : 16 ≤ bytes.length)
    (hw : m.write ((addrOffBytes bytes + sd) % MAP_SIZE) ≤ 1) :
    (∀ instr ∈ [Bytecode.MutBorrowGlobal sd, Bytecode.ImmBorrowGlobal sd,
        Bytecode.Exists sd, Bytecode.MoveFrom sd, Bytecode.MutBorrowGlobalGeneric sd,
        Bytecode.ImmBorrowGlobalGeneric sd, Bytecode.ExistsGeneric sd,
        Bytecode.MoveFromGeneric sd],
      onStep pc instr (ValueImpl.address bytes :: rest) m =
        some { m with read := updf m.read ((addrOffBytes bytes + sd) % MAP_SIZE) true }) ∧
    onStep pc (Bytecode.MoveTo sd)
        (v0 :: ValueImpl.structRef (ValueImpl.address bytes :: fields) :: rest) m =
      some { m with write := updf m.write ((addrOffBytes bytes + sd) % MAP_SIZE) 1 } ∧
    onStep pc (Bytecode.MoveToGeneric sd)
        (v0 :: ValueImpl.structRef (ValueImpl.address bytes :: fields) :: rest) m =
      some { m with write := updf m.write ((addrOffBytes bytes + sd) % MAP_SIZE) 1 } := by
  refine ⟨?_, ?_, ?_⟩
  · intro instr hins
    fin_cases hins <;> exact read_arm_value sd bytes m hlen
  · exact write_arm_value sd bytes m hlen hw
  · exact write_arm_value sd bytes m hlen hw

/-- Witness for C7: a 32-byte zero address with struct index 3 against
the initial maps, for one read-family opcode and for `MoveTo`. -/
theorem global_access_read_write_update_witness :
    onStep 0 (Bytecode.Exists 3) [ValueImpl.address (List.replicate 32 0)] initMaps =
      some { initMaps with read :=
        (updf initMaps.read ((addrOffBytes (List.replicate 32 0) + 3) % MAP_SIZE) true) } ∧
    onStep 0 (Bytecode.MoveTo 3)
        [ValueImpl.otherValue,
         ValueImpl.structRef [ValueImpl.address (List.replicate 32 0)]] initMaps =
      some { initMaps with write :=
        (updf initMaps.write ((addrOffBytes (List.replicate 32 0) + 3) % MAP_SIZE) 1) } :=
  ⟨(global_access_read_write_update 0 3 (List.replicate 32 0) [] ValueImpl.otherValue []
      initMaps (by decide) (by decide)).1 (Bytecode.Exists 3)
      (List.mem_cons_of_mem _ (List.mem_cons_of_mem _ (List.mem_cons_self _ _))),
   (global_access_read_write_update 0 3 (List.replicate 32 0) [] ValueImpl.otherValue []
      initMaps (by decide) (by decide)).2.1⟩

/-! ## Claims C8, C9 and C10 -/

/-- Claim C8.  The read and write maps are sticky: across any sequence of
tracer steps, once `read[i]` is true no step clears it, and once
`write[i]` is 1 no step resets it. -/
theorem read_write_maps_sticky (steps : List (Nat × Bytecode × List ValueImpl))
    (m m' : TracerMaps) (i : Nat) (h : runSteps steps m = some m') :
    (m.read i = true → m'.read i = true) ∧ (m.write i = 1 → m'.write i = 1) :=
  ⟨(runSteps_effects steps m m' h).1 i, (runSteps_effects steps m m' h).2.1 i⟩

/-- A concrete map with `read[2]` and `write[2]` already set, for the C8
witness. -/
def stickyWitnessMaps : TracerMaps :=
  { initMaps with read := updf initMaps.read 2 true, write := updf initMaps.write 2 1 }

/-- Witness for C8: a map with `read[2]` and `write[2]` set survives a
`Neq` step (a tracer no-op) unchanged. -/
theorem read_write_maps_sticky_witness :
    (stickyWitnessMaps.read 2 = true → stickyWitnessMaps.read 2 = true) ∧
    (stickyWitnessMaps.write 2 = 1 → stickyWitnessMaps.write 2 = 1) :=
  read_write_maps_sticky [(0, Bytecode.Neq, [])] stickyWitnessMaps stickyWitnessMaps
    2 rfl

/-- Claim C9.  Starting from the zero-initialized coverage map, every
entry stays in `[0, 254]` after any sequence of tracer steps: the
`(cov + 1) mod 255` bump never writes 255 and never overflows the byte. -/
theorem cov_entries_bounded (steps : List (Nat × Bytecode × List ValueImpl))
    (m' : TracerMaps) (h : runSteps steps initMaps = some m') (i : Nat) :
    m'.cov i ≤ 254 :=
  (runSteps_effects steps initMaps m' h).2.2.2 i (Nat.zero_le 254)

/-- Witness for C9: after one `BrTrue` step from the initial maps the
bumped bucket holds 1 ≤ 254. -/
theorem cov_entries_bounded_witness :
    ({ initMaps with cov := (updf initMaps.cov (3 % MAP_SIZE)
        ((initMaps.cov (3 % MAP_SIZE) + 1) % 2 ^ 8 % 255)) } : TracerMaps).cov 3 ≤ 254 :=
  cov_entries_bounded [(0, Bytecode.BrTrue 3, [ValueImpl.boolv true])]
    { initMaps with cov := (updf initMaps.cov (3 % MAP_SIZE)
        ((initMaps.cov (3 % MAP_SIZE) + 1) % 2 ^ 8 % 255)) }
    rfl 3

theorem cmp_min_shape (m : TracerMaps) (off d : Nat) :
    (if m.cmp off > d then { m with cmp := updf m.cmp off d } else m) =
    { m with cmp := updf m.cmp off (min (m.cmp off) d) } := by
  by_cases hc : m.cmp off > d
  · rw [if_pos hc, Nat.min_eq_right (le_of_lt hc)]
  · rw [if_neg hc, Nat.min_eq_left (by omega), updf_self_of_eq m.cmp off _ rfl]

/-- Claim C10.  Every entry of the comparison map is monotonically
non-increasing across any sequence of tracer steps, and each `Eq`, `Lt`,
`Le`, `Gt`, `Ge` observation replaces `cmp[pc mod MAP_SIZE]` with the
minimum of its existing value and the newly computed distance. -/
theorem cmp_monotone_min_update (steps : List (Nat × Bytecode × List ValueImpl))
    (m m' : TracerMaps) (h : runSteps steps m = some m') :
    (∀ i, m'.cmp i ≤ m.cmp i) ∧
    (∀ (pc : Nat) (l r : ValueImpl) (rest : List ValueImpl) (m₀ : TracerMaps),
      onStep pc Bytecode.Eq (l :: r :: rest) m₀ =
        some { m₀ with cmp :=
          (updf m₀.cmp (pc % MAP_SIZE) (min (m₀.cmp (pc % MAP_SIZE)) (distanceEq l r))) } ∧
      onStep pc Bytecode.Lt (l :: r :: rest) m₀ =
        some { m₀ with cmp :=
          (updf m₀.cmp (pc % MAP_SIZE) (min (m₀.cmp (pc % MAP_SIZE)) (distanceLe l r))) } ∧
      onStep pc Bytecode.Le (l :: r :: rest) m₀ =
        some { m₀ with cmp :=
          (updf m₀.cmp (pc % MAP_SIZE) (min (m₀.cmp (pc % MAP_SIZE)) (distanceLe l r))) } ∧
      onStep pc Bytecode.Gt (l :: r :: rest) m₀ =
        some { m₀ with cmp :=
          (updf m₀.cmp (pc % MAP_SIZE) (min (m₀.cmp (pc % MAP_SIZE)) (distanceGe l r))) } ∧
      onStep pc Bytecode.Ge (l :: r :: rest) m₀ =
        some { m₀ with cmp :=
          (updf m₀.cmp (pc % MAP_SIZE) (min (m₀.cmp (pc % MAP_SIZE)) (distanceGe l r))) }) := by
  refine ⟨(runSteps_effects steps m m' h).2.2.1, ?_⟩
  intro pc l r rest m₀
  exact ⟨congrArg some (cmp_min_shape m₀ (pc % MAP_SIZE) (distanceEq l r)),
    congrArg some (cmp_min_shape m₀ (pc % MAP_SIZE) (distanceLe l r)),
    congrArg some (cmp_min_shape m₀ (pc % MAP_SIZE) (distanceLe l r)),
    congrArg some (cmp_min_shape m₀ (pc % MAP_SIZE) (distanceGe l r)),
    congrArg some (cmp_min_shape m₀ (pc % MAP_SIZE) (distanceGe l r))⟩

/-- Witness for C10: the trivial empty step sequence plus one concrete
min-update of the `Eq` arm. -/
theorem cmp_monotone_min_update_witness :
    onStep 0 Bytecode.Eq [ValueImpl.u8v 1, ValueImpl.u8v 3] initMaps =
      some { initMaps with cmp :=
        (updf initMaps.cmp (0 % MAP_SIZE)
          (min (initMaps.cmp (0 % MAP_SIZE))
            (distanceEq (ValueImpl.u8v 1) (ValueImpl.u8v 3)))) } :=
  ((cmp_monotone_min_update [] initMaps initMaps rfl).2 0
    (ValueImpl.u8v 1) (ValueImpl.u8v 3) [] initMaps).1

end MoveVMModel
